import Mathlib

/-!
Verification development for the Frame-scanner repository (src/scanner.py).

The first part of this file is a shallow embedding of the code in
src/scanner.py: prices are rational numbers, SQLite tables are association
lists, the SHA-256 hash used by listing_id is implemented in full over
natural numbers (32-bit words are Nat values reduced modulo 2^32), and the
regular-expression price search is embedded as an explicit left-to-right
scan.  The second part models, from the words of the specification, the
excitation scoring engine (weights with exponential decay, cooldown damping,
logistic squash), whose code is not part of src/.
-/

set_option maxHeartbeats 1000000

/-! ### SHA-256 over lists of bytes (each byte a Nat below 256) -/

/-- Reduce a natural number to a 32-bit word. -/
def w32 (n : Nat) : Nat := n % 4294967296

/-- Right rotation of a 32-bit word by k positions. -/
def rotr32 (x k : Nat) : Nat :=
  w32 (Nat.lor (Nat.shiftRight x k) (Nat.shiftLeft x (32 - k)))

/-- Three-way xor. -/
def xor3 (a b c : Nat) : Nat := Nat.xor (Nat.xor a b) c

def sha_s0 (x : Nat) : Nat := xor3 (rotr32 x 7) (rotr32 x 18) (Nat.shiftRight x 3)

def sha_s1 (x : Nat) : Nat := xor3 (rotr32 x 17) (rotr32 x 19) (Nat.shiftRight x 10)

def sha_S0 (x : Nat) : Nat := xor3 (rotr32 x 2) (rotr32 x 13) (rotr32 x 22)

def sha_S1 (x : Nat) : Nat := xor3 (rotr32 x 6) (rotr32 x 11) (rotr32 x 25)

def sha_ch (e f g : Nat) : Nat :=
  Nat.xor (Nat.land e f) (Nat.land (Nat.xor e 4294967295) g)

def sha_maj (a b c : Nat) : Nat :=
  Nat.xor (Nat.xor (Nat.land a b) (Nat.land a c)) (Nat.land b c)

/-- The 64 SHA-256 round constants. -/
def shaK : List Nat :=
  [1116352408, 1899447441, 3049323471, 3921009573,
   961987163, 1508970993, 2453635748, 2870763221,
   3624381080, 310598401, 607225278, 1426881987,
   1925078388, 2162078206, 2614888103, 3248222580,
   3835390401, 4022224774, 264347078, 604807628,
   770255983, 1249150122, 1555081692, 1996064986,
   2554220882, 2821834349, 2952996808, 3210313671,
   3336571891, 3584528711, 113926993, 338241895,
   666307205, 773529912, 1294757372, 1396182291,
   1695183700, 1986661051, 2177026350, 2456956037,
   2730485921, 2820302411, 3259730800, 3345764771,
   3516065817, 3600352804, 4094571909, 275423344,
   430227734, 506948616, 659060556, 883997877,
   958139571, 1322822218, 1537002063, 1747873779,
   1955562222, 2024104815, 2227730452, 2361852424,
   2428436474, 2756734187, 3204031479, 3329325298]

/-- Working state of the compression function: eight 32-bit words. -/
structure Hash8 where
  a : Nat
  b : Nat
  c : Nat
  d : Nat
  e : Nat
  f : Nat
  g : Nat
  h : Nat

/-- Initial SHA-256 hash value. -/
def shaH0 : Hash8 :=
  Hash8.mk 1779033703 3144134277 1013904242 2773480762
    1359893119 2600822924 528734635 1541459225

/-- One round of the SHA-256 compression function. -/
def compressStep (s : Hash8) (kw : Nat × Nat) : Hash8 :=
  let t1 := w32 (s.h + sha_S1 s.e + sha_ch s.e s.f s.g + kw.1 + kw.2)
  let t2 := w32 (sha_S0 s.a + sha_maj s.a s.b s.c)
  Hash8.mk (w32 (t1 + t2)) s.a s.b s.c (w32 (s.d + t1)) s.e s.f s.g

/-- Extend 16 message-schedule words to 64. -/
def extendSchedule (ws : List Nat) : List Nat :=
  (List.range 48).foldl
    (fun acc i =>
      acc ++ [w32 (sha_s1 (acc.getD (i + 14) 0) + acc.getD (i + 9) 0 +
                   sha_s0 (acc.getD (i + 1) 0) + acc.getD i 0)])
    ws

/-- Process one 16-word chunk. -/
def compressChunk (s : Hash8) (ws : List Nat) : Hash8 :=
  let sched := extendSchedule ws
  let t := (shaK.zip sched).foldl compressStep s
  Hash8.mk (w32 (s.a + t.a)) (w32 (s.b + t.b)) (w32 (s.c + t.c)) (w32 (s.d + t.d))
           (w32 (s.e + t.e)) (w32 (s.f + t.f)) (w32 (s.g + t.g)) (w32 (s.h + t.h))

/-- Big-endian bytes of a 64-bit length field. -/
def be64 (n : Nat) : List Nat :=
  [Nat.shiftRight n 56 % 256, Nat.shiftRight n 48 % 256, Nat.shiftRight n 40 % 256,
   Nat.shiftRight n 32 % 256, Nat.shiftRight n 24 % 256, Nat.shiftRight n 16 % 256,
   Nat.shiftRight n 8 % 256, n % 256]

/-- Big-endian bytes of a 32-bit word. -/
def be32 (n : Nat) : List Nat :=
  [Nat.shiftRight n 24 % 256, Nat.shiftRight n 16 % 256, Nat.shiftRight n 8 % 256, n % 256]

/-- SHA-256 message padding: append 0x80, zero bytes, and the bit length. -/
def padMessage (msg : List Nat) : List Nat :=
  let padLen := (64 - (msg.length + 9) % 64) % 64
  msg ++ [128] ++ List.replicate padLen 0 ++ be64 (8 * msg.length)

/-- Group a byte list into big-endian 32-bit words. -/
def bytesToWords : List Nat → List Nat
  | b0 :: b1 :: b2 :: b3 :: rest => (((b0 * 256 + b1) * 256 + b2) * 256 + b3) :: bytesToWords rest
  | _ => []

/-- Split a word list into chunks of 16 words. -/
def chunksOf16 : List Nat → List (List Nat)
  | [] => []
  | w :: ws => ((w :: ws).take 16) :: chunksOf16 ((w :: ws).drop 16)
termination_by l => l.length
decreasing_by simp; omega

/-- Full SHA-256: bytes in, 32 digest bytes out. -/
def sha256 (msg : List Nat) : List Nat :=
  let final := (chunksOf16 (bytesToWords (padMessage msg))).foldl compressChunk shaH0
  be32 final.a ++ be32 final.b ++ be32 final.c ++ be32 final.d ++
  be32 final.e ++ be32 final.f ++ be32 final.g ++ be32 final.h

/-- Lower-case hex character for a nibble. -/
def hexChar (n : Nat) : Char :=
  if n < 10 then Char.ofNat (48 + n) else Char.ofNat (87 + n)

/-- Two hex characters for one byte. -/
def hexByte (b : Nat) : List Char := [hexChar (b / 16), hexChar (b % 16)]

/-- UTF-8 encoding of a single character as bytes. -/
def utf8Char (c : Char) : List Nat :=
  let n := c.toNat
  if n < 128 then [n]
  else if n < 2048 then [192 + n / 64, 128 + n % 64]
  else if n < 65536 then [224 + n / 4096, 128 + (n / 64) % 64, 128 + n % 64]
  else [240 + n / 262144, 128 + (n / 4096) % 64, 128 + (n / 64) % 64, 128 + n % 64]

/-- UTF-8 encoding of a string as a byte list. -/
def utf8Bytes (s : String) : List Nat := (s.toList.map utf8Char).flatten

/-- hashlib.sha256(...).hexdigest()[:24] from scanner.py: the first 24 hex
characters of the SHA-256 digest of the UTF-8 bytes of the input. -/
def sha256hex24 (s : String) : String :=
  String.mk ((((sha256 (utf8Bytes s)).map hexByte).flatten).take 24)

/-! ### Data model of scanner.py -/

/-- The Listing dataclass of scanner.py.  Prices are modelled as rationals
(Python floats hold whole-dollar values here, produced by parse_price). -/
structure Listing where
  feed_url : String
  title : String
  link : String
  price : Option ℚ
  published : Option String

/-- Python `listing.link or listing.title`: the link unless it is the empty
string (falsy), else the title. -/
def dedupeInput (l : Listing) : String :=
  if l.link = "" then l.title else l.link

/-- listing_id from scanner.py: first 24 hex digits of the SHA-256 of the
UTF-8 bytes of `listing.link or listing.title`. -/
def listing_id (l : Listing) : String := sha256hex24 (dedupeInput l)

/-! ### parse_price: embedding of re.search on the pattern
\$?\s*([0-9]{1,6})(?:\.[0-9]{1,2})? applied to the comma-stripped input.
The trailing optional fraction group never affects group 1 (it can neither
make a match fail nor move the leftmost match position), so it is dropped
from the embedding.  re.search tries the pattern at each position from the
left; at one position it optionally consumes a dollar sign, then
whitespace, then requires at least one digit and captures at most six. -/

/-- text.replace(",", "") from parse_price, as a character list. -/
def stripCommas (s : String) : List Char :=
  s.toList.filter (fun c => c != ',')

/-- The first maximal run of digit characters in a list. -/
def firstDigitRun : List Char → List Char
  | [] => []
  | c :: cs => if c.isDigit then c :: cs.takeWhile Char.isDigit else firstDigitRun cs

/-- The optional leading dollar sign of the pattern. -/
def dollarStrip (l : List Char) : List Char :=
  match l with
  | '$' :: rest => rest
  | _ => l

/-- Attempt of the price pattern at one fixed position. -/
def matchPriceAt (l : List Char) : Option (List Char) :=
  let l2 := (dollarStrip l).dropWhile Char.isWhitespace
  let ds := l2.takeWhile Char.isDigit
  if ds.isEmpty then none else some (ds.take 6)

/-- re.search: try the pattern at each position, leftmost first. -/
def searchPrice : List Char → Option (List Char)
  | [] => none
  | c :: cs =>
    match matchPriceAt (c :: cs) with
    | some g => some g
    | none => searchPrice cs

/-- Numeric value of a digit string. -/
def digitsToNat (l : List Char) : Nat :=
  l.foldl (fun n c => n * 10 + (c.toNat - 48)) 0

/-- parse_price from scanner.py.  float(m.group(1)) of a 1-6 digit group is
a whole number, modelled as a rational. -/
def parse_price (text : String) : Option ℚ :=
  if text = "" then none
  else
    match searchPrice (stripCommas text) with
    | some g => some ((digitsToNat g : ℚ))
    | none => none

/-! ### normalize / keyword matching -/

/-- Replace each maximal whitespace run by a single space. -/
def collapseWS : List Char → List Char
  | [] => []
  | [c] => [if c.isWhitespace then ' ' else c]
  | c1 :: c2 :: cs =>
    if c1.isWhitespace && c2.isWhitespace then collapseWS (c2 :: cs)
    else (if c1.isWhitespace then ' ' else c1) :: collapseWS (c2 :: cs)

/-- normalize from scanner.py: strip, lower-case, collapse whitespace runs.
Named normalizeStr because Mathlib already has a normalize. -/
def normalizeStr (s : String) : String :=
  String.mk (collapseWS s.trim.toLower.toList)

/-- Does the second list occur at the head of the first? -/
def startsWithL : List Char → List Char → Bool
  | _, [] => true
  | [], _ :: _ => false
  | c :: cs, p :: ps => c == p && startsWithL cs ps

/-- Substring occurrence check (the Python `in` operator on str). -/
def hasSub : List Char → List Char → Bool
  | [], pat => pat.isEmpty
  | c :: cs, pat => startsWithL (c :: cs) pat || hasSub cs pat

/-- The module-level configuration of scanner.py (KEYWORDS, FEED_CATEGORY,
PRICE_BANDS), passed explicitly.  feed_category returns the empty string
for an unmapped feed, mirroring FEED_CATEGORY.get(url, ""). -/
structure Config where
  keywords : String → List String
  feed_category : String → String
  price_bands : String → Option (ℚ × ℚ × ℚ × ℚ)

/-- matches_keywords from scanner.py. -/
def matches_keywords (cfg : Config) (l : Listing) : Bool :=
  let kws := cfg.keywords l.feed_url
  if kws.isEmpty then true
  else kws.any (fun k =>
    hasSub (normalizeStr (l.title ++ " " ++ l.link)).toList (normalizeStr k).toList)

/-! ### The seen table (SQLite), as an association list keyed by id -/

/-- One row of the seen table. -/
structure SeenRec where
  first_seen : String
  feed_url : String
  title : String
  link : String
  price : Option ℚ
  published : Option String

/-- Association-list lookup on string keys. -/
def assocFind {α : Type} : List (String × α) → String → Option α
  | [], _ => none
  | (k, v) :: rest, key => if k = key then some v else assocFind rest key

/-- The seen table: rows keyed by the 24-hex-character listing id. -/
def SeenTable : Type := List (String × SeenRec)

/-- is_seen from scanner.py: SELECT 1 FROM seen WHERE id = lid. -/
def is_seen (st : SeenTable) (lid : String) : Bool :=
  (assocFind st lid).isSome

/-- The row mark_seen inserts: (lid, now_utc_iso(), feed_url, title, link,
price, published). -/
def mkSeenRec (nowIso : String) (l : Listing) : SeenRec :=
  SeenRec.mk nowIso l.feed_url l.title l.link l.price l.published

/-- mark_seen from scanner.py: INSERT OR IGNORE, i.e. insert if absent,
no overwrite. -/
def mark_seen (st : SeenTable) (lid : String) (r : SeenRec) : SeenTable :=
  match assocFind st lid with
  | some _ => st
  | none => (lid, r) :: st

/-- The dedupe gate of the main loop (lines 305-310): the is_seen check
followed by mark_seen; true means the item passes on to evaluation. -/
def dedupeGate (st : SeenTable) (nowIso : String) (lid : String) (l : Listing) :
    Bool × SeenTable :=
  if is_seen st lid then (false, st)
  else (true, mark_seen st lid (mkSeenRec nowIso l))

/-! ### Band lookup, misprice check, feed entry extraction -/

/-- get_bands_for_listing from scanner.py. -/
def get_bands_for_listing (cfg : Config) (l : Listing) :
    Option (ℚ × ℚ × ℚ × ℚ) :=
  let cat := cfg.feed_category l.feed_url
  if cat = "" then none else cfg.price_bands cat

/-- is_mispriced from scanner.py: unknown price still alerts; otherwise the
price must be at or below max_buy. -/
def is_mispriced (l : Listing) (max_buy : ℚ) : Bool :=
  match l.price with
  | none => true
  | some p => p ≤ max_buy

/-- A feed entry, with the fields extract_listing reads (absent dict keys
are already collapsed to the empty string / none as the code does). -/
structure Entry where
  title : String
  link : String
  summary : String
  description : String
  published : Option String
  updated : Option String

/-- Python `a or b` on strings: empty strings are falsy. -/
def pyOrStr (a b : String) : String := if a = "" then b else a

/-- Python `a or b` on optional strings: None and the empty string are falsy. -/
def pyOrStrOpt (a b : Option String) : Option String :=
  match a with
  | some s => if s = "" then b else some s
  | none => b

/-- Python `a or b` on optional prices: None and 0.0 are falsy. -/
def pyOrPrice (a b : Option ℚ) : Option ℚ :=
  match a with
  | some p => if p = 0 then b else some p
  | none => b

/-- extract_listing from scanner.py. -/
def extract_listing (feed_url : String) (e : Entry) : Listing :=
  let summary := pyOrStr e.summary e.description
  Listing.mk feed_url e.title e.link
    (pyOrPrice (parse_price e.title) (parse_price summary))
    (pyOrStrOpt e.published e.updated)

/-! ### The per-entry pipeline of main (lines 297-327) -/

/-- Processing of one extracted listing inside the entry loop of main:
skip empty items, apply the keyword filter, the dedupe gate, the band
lookup and the misprice check; the optional result is the alert packet
(printed and emailed in the code). -/
def processEntry (cfg : Config) (nowIso : String) (st : SeenTable) (l : Listing) :
    SeenTable × Option (Listing × (ℚ × ℚ × ℚ × ℚ)) :=
  if l.title = "" && l.link = "" then (st, none)
  else if !(matches_keywords cfg l) then (st, none)
  else if is_seen st (listing_id l) then (st, none)
  else
    match get_bands_for_listing cfg l with
    | none => (mark_seen st (listing_id l) (mkSeenRec nowIso l), none)
    | some bands =>
      if is_mispriced l bands.1 then
        (mark_seen st (listing_id l) (mkSeenRec nowIso l), some (l, bands))
      else (mark_seen st (listing_id l) (mkSeenRec nowIso l), none)

/-- Sequential processing of the listings of one feed, threading the seen
table and collecting alerts in order. -/
def processListings (cfg : Config) (nowIso : String) :
    SeenTable → List Listing → SeenTable × List (Listing × (ℚ × ℚ × ℚ × ℚ))
  | st, [] => (st, [])
  | st, l :: ls =>
    let r := processEntry cfg nowIso st l
    let rest := processListings cfg nowIso r.1 ls
    (rest.1, (match r.2 with | some a => [a] | none => []) ++ rest.2)

/-- One feed inside the try/except of main: a raised fetch or parse failure
is caught and contributes nothing; a successful fetch processes the first
50 entries. -/
def processFeed (cfg : Config) (nowIso : String) (st : SeenTable)
    (feed_url : String) (r : Except String (List Entry)) :
    SeenTable × List (Listing × (ℚ × ℚ × ℚ × ℚ)) :=
  match r with
  | Except.error _ => (st, [])
  | Except.ok entries =>
    processListings cfg nowIso st ((entries.take 50).map (extract_listing feed_url))

/-- One poll cycle: every feed in order, each with its own try/except. -/
def pollCycle (cfg : Config) (nowIso : String) :
    SeenTable → List (String × Except String (List Entry)) →
    SeenTable × List (Listing × (ℚ × ℚ × ℚ × ℚ))
  | st, [] => (st, [])
  | st, (url, r) :: fs =>
    let x := processFeed cfg nowIso st url r
    let rest := pollCycle cfg nowIso x.1 fs
    (rest.1, x.2 ++ rest.2)

/-! ### The excitation scoring engine, modelled from the specification.
The engine code (weights, decay, cooldown, sigmoid squash) is not part of
src/; every definition below is written from the words of spec.md sections
3, 4.1-4.3. -/

/-- Modelled from the spec: the Item record of section 3 (the engine input;
the url field is display-only and omitted from the embedding). -/
structure Item where
  source : String
  id : String
  title : String
  price : Option ℝ
  created_ts : ℝ

/-- Modelled from the spec: the persistent store of section 4.1 - a weight
table of (value, updated_ts) records and a cooldown table of until_ts
values, both keyed by derived key strings. -/
structure EngineStore where
  weights : List (String × (ℝ × ℝ))
  cooldowns : List (String × ℝ)

/-- Clamp x into the interval from lo to hi. -/
def clamp (x lo hi : ℝ) : ℝ := max lo (min hi x)

/-- Modelled from the spec: sigmoid(x) = 1/(1+e^-x) (section 4.3, step 4). -/
noncomputable def sigmoid (x : ℝ) : ℝ := 1 / (1 + Real.exp (-x))

/-- Modelled from the spec: the read-time decay of a stored weight,
value * (1 - DECAY)^max(days_elapsed, 0) with
days_elapsed = (t - updated_ts) / 86400 (section 3, WeightRecord). -/
noncomputable def decayedWeight (v updated_ts now decay : ℝ) : ℝ :=
  v * (1 - decay) ^ max ((now - updated_ts) / 86400) 0

/-- Modelled from the spec: getWeight(key) - the decayed value as of the
call time, or 0.0 if absent (section 4.1). -/
noncomputable def getWeight (st : EngineStore) (key : String) (now decay : ℝ) : ℝ :=
  match assocFind st.weights key with
  | some vt => decayedWeight vt.1 vt.2 now decay
  | none => 0

/-- Modelled from the spec: a key is on cooldown iff now < until_ts; an
absent record means no cooldown (section 3, CooldownRecord). -/
def isOnCooldown (st : EngineStore) (key : String) (now : ℝ) : Prop :=
  match assocFind st.cooldowns key with
  | some u => now < u
  | none => False

/-- First whitespace-delimited token of a character list. -/
def firstTokenL (l : List Char) : List Char :=
  (l.dropWhile Char.isWhitespace).takeWhile (fun c => !c.isWhitespace)

/-- Modelled from the spec: the coarse content key source - the first
whitespace-delimited lower-cased token of the title, with a sentinel token
for an empty title (section 4.2). -/
def firstTitleToken (title : String) : String :=
  let t := firstTokenL title.toLower.toList
  if t.isEmpty then "empty" else String.mk t

/-- Modelled from the spec: deriveKeys(item) - a source-scoped key and a
coarse content key, namespaced per derivation axis (section 4.2). -/
def deriveKeys (it : Item) : List String :=
  ["source:" ++ it.source, "term:" ++ firstTitleToken it.title]

/-- Modelled from the spec: the base score of section 4.3 step 1 - price
contribution clamp(1/(1+price), 0, 0.25) when the price is known, plus
recency contribution clamp(exp(-age_hours/12) * 0.25, 0, 0.25) with
age_hours = (now - created_ts)/3600. -/
noncomputable def baseScore (it : Item) (now : ℝ) : ℝ :=
  (match it.price with
   | some p => clamp (1 / (1 + p)) 0 0.25
   | none => 0) +
  clamp (Real.exp (-(((now - it.created_ts) / 3600) / 12)) * 0.25) 0 0.25

/-- Modelled from the spec: the running score of section 4.3 step 2 - the
base score plus clamp(getWeight(key), -0.35, 0.35) for every derived key. -/
noncomputable def runningScore (it : Item) (st : EngineStore) (now decay : ℝ) : ℝ :=
  (deriveKeys it).foldl
    (fun s k => s + clamp (getWeight st k now decay) (-0.35) 0.35)
    (baseScore it now)

open Classical in
/-- Modelled from the spec: the damping factor of section 4.3 step 3 over an
explicit key list - it starts at 1.0 and is halved once per key on cooldown. -/
noncomputable def dampingOf (keys : List String) (st : EngineStore) (now : ℝ) : ℝ :=
  keys.foldl (fun d k => if isOnCooldown st k now then d * 0.5 else d) 1

/-- Modelled from the spec: the damping factor of the item (section 4.3
step 3). -/
noncomputable def damping (it : Item) (st : EngineStore) (now : ℝ) : ℝ :=
  dampingOf (deriveKeys it) st now

open Classical in
/-- Number of keys of a list that are on cooldown. -/
noncomputable def cooledCount (keys : List String) (st : EngineStore) (now : ℝ) : ℕ :=
  (keys.filter (fun k => decide (isOnCooldown st k now))).length

/-- Modelled from the spec: excitation(item) of section 4.3 step 4 -
clamp(sigmoid(3 * (runningScore - 0.35)) * damping, 0, 1). -/
noncomputable def excitation (it : Item) (st : EngineStore) (now decay : ℝ) : ℝ :=
  clamp (sigmoid (3 * (runningScore it st now decay - 0.35)) * damping it st now) 0 1

/-- Removal of the cooldown record of one key, the store surgery of the
cooldown-damping property of section 8 (all other state held fixed). -/
def removeCooldown (st : EngineStore) (key : String) : EngineStore :=
  EngineStore.mk st.weights (st.cooldowns.filter (fun p => p.1 != key))

/-! ### Helper lemmas about the seen table -/

theorem is_seen_mark_seen_self (st : SeenTable) (lid : String) (r : SeenRec) :
    is_seen (mark_seen st lid r) lid = true := by
  unfold is_seen mark_seen
  cases hf : assocFind st lid with
  | some v => simp [hf]
  | none => simp [assocFind]

theorem is_seen_mark_seen_mono (st : SeenTable) (lid : String) (r : SeenRec)
    (k : String) (h : is_seen st k = true) :
    is_seen (mark_seen st lid r) k = true := by
  unfold is_seen mark_seen at *
  cases hf : assocFind st lid with
  | some v => simpa using h
  | none =>
    by_cases hk : lid = k
    · simp [assocFind, hk]
    · simpa [assocFind, hk] using h

/-- C1: for every item identity, the first dedupeGate call (is_seen check then
mark_seen) returns true and the second and third calls for the same
identity return false, whatever listing payloads and timestamps those later
calls carry. -/
theorem dedupeGate_triple (st : SeenTable) (lid : String) (l1 l2 l3 : Listing)
    (n1 n2 n3 : String) (h : is_seen st lid = false) :
    (dedupeGate st n1 lid l1).1 = true ∧
    (dedupeGate (dedupeGate st n1 lid l1).2 n2 lid l2).1 = false ∧
    (dedupeGate (dedupeGate (dedupeGate st n1 lid l1).2 n2 lid l2).2 n3 lid l3).1 = false := by
  have h2 : is_seen (mark_seen st lid (mkSeenRec n1 l1)) lid = true :=
    is_seen_mark_seen_self st lid (mkSeenRec n1 l1)
  simp [dedupeGate, h, h2]

theorem dedupeGate_triple_witness :
    is_seen ([] : SeenTable) "k" = false ∧
    ((dedupeGate [] "t1" "k" (Listing.mk "f" "a" "u" none none)).1 = true ∧
     (dedupeGate (dedupeGate [] "t1" "k" (Listing.mk "f" "a" "u" none none)).2 "t2" "k"
        (Listing.mk "f" "a" "u" none none)).1 = false ∧
     (dedupeGate (dedupeGate (dedupeGate [] "t1" "k" (Listing.mk "f" "a" "u" none none)).2 "t2" "k"
          (Listing.mk "f" "a" "u" none none)).2 "t3" "k"
        (Listing.mk "f" "a" "u" none none)).1 = false) :=
  ⟨rfl, dedupeGate_triple [] "k" (Listing.mk "f" "a" "u" none none)
      (Listing.mk "f" "a" "u" none none) (Listing.mk "f" "a" "u" none none)
      "t1" "t2" "t3" rfl⟩

/-- C2 counterexample: two listings that differ in source (feed_url) but
share a link hash to the same stored dedupe key, because listing_id reads
only `link or title` - the source is not part of the identity. -/
theorem listing_id_ignores_source_cex :
    listing_id (Listing.mk "feedA" "t1" "http://x" none none) =
      listing_id (Listing.mk "feedB" "t2" "http://x" none none) ∧
    (Listing.mk "feedA" "t1" "http://x" none none).feed_url ≠
      (Listing.mk "feedB" "t2" "http://x" none none).feed_url :=
  ⟨rfl, by decide⟩

/-- C2 amended: the stored dedupe key is a deterministic function of the
listing's link when non-empty, else of its title; two listings agreeing on
that string share the same key regardless of feed (source). -/
theorem listing_id_link_or_title (l1 l2 : Listing)
    (h : dedupeInput l1 = dedupeInput l2) : listing_id l1 = listing_id l2 := by
  unfold listing_id
  rw [h]

theorem listing_id_link_or_title_witness :
    dedupeInput (Listing.mk "f1" "same title" "" none none) =
      dedupeInput (Listing.mk "f2" "same title" "" none none) ∧
    listing_id (Listing.mk "f1" "same title" "" none none) =
      listing_id (Listing.mk "f2" "same title" "" none none) :=
  ⟨rfl, listing_id_link_or_title (Listing.mk "f1" "same title" "" none none)
      (Listing.mk "f2" "same title" "" none none) rfl⟩

/-- C3: mark_seen is insert-if-absent - on an identity already present it
returns the table unchanged, and in every case each existing row keeps the
exact record written at its first insertion (no row is ever deleted or
overwritten). -/
theorem mark_seen_insert_if_absent (st : SeenTable) (lid : String) (r : SeenRec) :
    (is_seen st lid = true → mark_seen st lid r = st) ∧
    (∀ k v, assocFind st k = some v → assocFind (mark_seen st lid r) k = some v) := by
  constructor
  · intro h
    unfold is_seen at h
    unfold mark_seen
    cases hf : assocFind st lid with
    | some v => rfl
    | none => rw [hf] at h; simp at h
  · intro k v hv
    unfold mark_seen
    cases hf : assocFind st lid with
    | some w => exact hv
    | none =>
      by_cases hk : lid = k
      · subst hk; rw [hf] at hv; cases hv
      · simpa [assocFind, hk] using hv

theorem mark_seen_insert_if_absent_witness :
    is_seen [("a", SeenRec.mk "t0" "f" "ti" "li" none none)] "a" = true ∧
    mark_seen [("a", SeenRec.mk "t0" "f" "ti" "li" none none)] "a"
        (SeenRec.mk "t9" "g" "x" "y" none none) =
      [("a", SeenRec.mk "t0" "f" "ti" "li" none none)] :=
  ⟨rfl, (mark_seen_insert_if_absent
      [("a", SeenRec.mk "t0" "f" "ti" "li" none none)] "a"
      (SeenRec.mk "t9" "g" "x" "y" none none)).1 rfl⟩

/-- C8: is_mispriced accepts every listing with unknown price, and a known
price passes exactly when it is at or below max_buy (inclusive at equality). -/
theorem is_mispriced_spec (l : Listing) (mb : ℚ) :
    (l.price = none → is_mispriced l mb = true) ∧
    (∀ p, l.price = some p → (is_mispriced l mb = true ↔ p ≤ mb)) := by
  constructor
  · intro h; simp [is_mispriced, h]
  · intro p hp; simp [is_mispriced, hp]

theorem is_mispriced_spec_witness :
    is_mispriced (Listing.mk "f" "a" "u" none none) 50 = true ∧
    (is_mispriced (Listing.mk "f" "a" "u" (some 50) none) 50 = true ↔ (50 : ℚ) ≤ 50) ∧
    (is_mispriced (Listing.mk "f" "a" "u" (some 51) none) 50 = true ↔ (51 : ℚ) ≤ 50) :=
  ⟨(is_mispriced_spec (Listing.mk "f" "a" "u" none none) 50).1 rfl,
   (is_mispriced_spec (Listing.mk "f" "a" "u" (some 50) none) 50).2 50 rfl,
   (is_mispriced_spec (Listing.mk "f" "a" "u" (some 51) none) 50).2 51 rfl⟩

/-! ### Pipeline lemmas -/

theorem processEntry_state_cases (cfg : Config) (nowIso : String)
    (st : SeenTable) (l : Listing) :
    (processEntry cfg nowIso st l).1 = st ∨
    (processEntry cfg nowIso st l).1 =
      mark_seen st (listing_id l) (mkSeenRec nowIso l) := by
  unfold processEntry
  split
  · exact Or.inl rfl
  · split
    · exact Or.inl rfl
    · split
      · exact Or.inl rfl
      · split
        · exact Or.inr rfl
        · split
          · exact Or.inr rfl
          · exact Or.inr rfl

theorem processEntry_of_seen (cfg : Config) (nowIso : String)
    (st : SeenTable) (l : Listing) (h : is_seen st (listing_id l) = true) :
    processEntry cfg nowIso st l = (st, none) := by
  unfold processEntry
  split
  · rfl
  · split
    · rfl
    · simp [h]

theorem processEntry_seen_mono (cfg : Config) (nowIso : String)
    (st : SeenTable) (l : Listing) (k : String) (h : is_seen st k = true) :
    is_seen (processEntry cfg nowIso st l).1 k = true := by
  rcases processEntry_state_cases cfg nowIso st l with hc | hc
  · rw [hc]; exact h
  · rw [hc]; exact is_seen_mark_seen_mono st (listing_id l) (mkSeenRec nowIso l) k h

theorem processListings_seen_mono (cfg : Config) (nowIso : String)
    (ls : List Listing) :
    ∀ st k, is_seen st k = true →
      is_seen (processListings cfg nowIso st ls).1 k = true := by
  induction ls with
  | nil => intro st k h; exact h
  | cons l ls ih =>
    intro st k h
    simp only [processListings]
    exact ih _ k (processEntry_seen_mono cfg nowIso st l k h)

theorem processFeed_seen_mono (cfg : Config) (nowIso : String) (st : SeenTable)
    (url : String) (r : Except String (List Entry)) (k : String)
    (h : is_seen st k = true) :
    is_seen (processFeed cfg nowIso st url r).1 k = true := by
  cases r with
  | error e => exact h
  | ok entries => exact processListings_seen_mono cfg nowIso _ st k h

theorem pollCycle_seen_mono (cfg : Config) (nowIso : String)
    (feeds : List (String × Except String (List Entry))) :
    ∀ st k, is_seen st k = true →
      is_seen (pollCycle cfg nowIso st feeds).1 k = true := by
  induction feeds with
  | nil => intro st k h; exact h
  | cons f fs ih =>
    intro st k h
    cases f with
    | mk url r =>
      simp only [pollCycle]
      exact ih _ k (processFeed_seen_mono cfg nowIso st url r k h)

/-- C7: a fetch or parse failure (a raised exception) while polling one
feed leaves the cycle equal to the cycle without that feed - every other
feed in the same cycle is still fetched, deduplicated and scored, and the
loop continues. -/
theorem pollCycle_error_isolated (cfg : Config) (nowIso : String)
    (fs1 fs2 : List (String × Except String (List Entry))) (url msg : String) :
    ∀ st, pollCycle cfg nowIso st (fs1 ++ (url, Except.error msg) :: fs2) =
      pollCycle cfg nowIso st (fs1 ++ fs2) := by
  induction fs1 with
  | nil =>
    intro st
    simp only [List.nil_append, pollCycle, processFeed, List.nil_append]
  | cons f fs ih =>
    intro st
    cases f with
    | mk u r =>
      simp only [List.cons_append, pollCycle, List.append_eq]
      rw [ih]

/-- C10: for an unseen listing passing the keyword filter, mark_seen runs
before the band lookup and the misprice check, so a listing rejected by
either is still recorded as seen; a recorded listing is never re-evaluated
or alerted by any later processing, and seen-ness persists through every
later poll cycle. -/
theorem mark_seen_precedes_band_check (cfg : Config) (nowIso : String)
    (st : SeenTable) (l : Listing)
    (hne : ¬(l.title = "" ∧ l.link = ""))
    (hkw : matches_keywords cfg l = true)
    (hunseen : is_seen st (listing_id l) = false)
    (hrej : get_bands_for_listing cfg l = none ∨
      ∃ b, get_bands_for_listing cfg l = some b ∧ is_mispriced l b.1 = false) :
    (processEntry cfg nowIso st l =
        (mark_seen st (listing_id l) (mkSeenRec nowIso l), none) ∧
      is_seen (processEntry cfg nowIso st l).1 (listing_id l) = true) ∧
    (∀ st2 l2, is_seen st2 (listing_id l2) = true →
      processEntry cfg nowIso st2 l2 = (st2, none)) ∧
    (∀ st2 k feeds, is_seen st2 k = true →
      is_seen (pollCycle cfg nowIso st2 feeds).1 k = true) := by
  refine ⟨?_, ?_, ?_⟩
  · have hmain : processEntry cfg nowIso st l =
        (mark_seen st (listing_id l) (mkSeenRec nowIso l), none) := by
      have hcond : ¬(l.title = "" ∧ l.link = "") := hne
      unfold processEntry
      rcases hrej with hb | ⟨b, hb, hm⟩
      · by_cases hA : l.title = "" <;> by_cases hB : l.link = "" <;>
          simp_all [hkw, hunseen, hb]
      · by_cases hA : l.title = "" <;> by_cases hB : l.link = "" <;>
          simp_all [hkw, hunseen, hb, hm]
    constructor
    · exact hmain
    · rw [hmain]
      exact is_seen_mark_seen_self st (listing_id l) (mkSeenRec nowIso l)
  · intro st2 l2 hseen
    exact processEntry_of_seen cfg nowIso st2 l2 hseen
  · intro st2 k feeds hseen
    exact pollCycle_seen_mono cfg nowIso feeds st2 k hseen

theorem mark_seen_precedes_band_check_witness :
    matches_keywords
        (Config.mk (fun _ => []) (fun _ => "") (fun _ => none))
        (Listing.mk "f" "chair" "http://a" none none) = true ∧
    is_seen ([] : SeenTable)
        (listing_id (Listing.mk "f" "chair" "http://a" none none)) = false ∧
    processEntry (Config.mk (fun _ => []) (fun _ => "") (fun _ => none)) "t0"
        ([] : SeenTable) (Listing.mk "f" "chair" "http://a" none none) =
      (mark_seen ([] : SeenTable)
          (listing_id (Listing.mk "f" "chair" "http://a" none none))
          (mkSeenRec "t0" (Listing.mk "f" "chair" "http://a" none none)),
        none) :=
  ⟨rfl, rfl,
    ((mark_seen_precedes_band_check
        (Config.mk (fun _ => []) (fun _ => "") (fun _ => none)) "t0" []
        (Listing.mk "f" "chair" "http://a" none none)
        (by simp) rfl rfl (Or.inl rfl)).1).1⟩

/-! ### Helper lemmas for the engine -/

theorem lo_le_clamp (x lo hi : ℝ) : lo ≤ clamp x lo hi := le_max_left _ _

theorem clamp_le_hi (x lo hi : ℝ) (h : lo ≤ hi) : clamp x lo hi ≤ hi :=
  max_le h (min_le_left _ _)

theorem clamp_eq_self (x lo hi : ℝ) (h0 : lo ≤ x) (h1 : x ≤ hi) :
    clamp x lo hi = x := by
  unfold clamp
  rw [min_eq_right h1, max_eq_right h0]

theorem sigmoid_pos (x : ℝ) : 0 < sigmoid x := by
  unfold sigmoid
  positivity

theorem sigmoid_lt_one (x : ℝ) : sigmoid x < 1 := by
  unfold sigmoid
  rw [div_lt_one (by positivity)]
  linarith [Real.exp_pos (-x)]

theorem sourceKey_ne_termKey (s t : String) :
    ("source:" ++ s) ≠ ("term:" ++ t) := by
  intro h
  have h1 := congrArg String.data h
  simp only [String.data_append] at h1
  simp at h1

theorem assocFind_filter_self {α : Type} (l : List (String × α)) (k : String) :
    assocFind (l.filter (fun p => p.1 != k)) k = none := by
  induction l with
  | nil => rfl
  | cons p rest ih =>
    by_cases h : p.1 = k
    · simp [List.filter_cons, h, ih]
    · simp [List.filter_cons, h, assocFind, ih]

theorem assocFind_filter_ne {α : Type} (l : List (String × α)) (k k2 : String)
    (h : k2 ≠ k) :
    assocFind (l.filter (fun p => p.1 != k)) k2 = assocFind l k2 := by
  induction l with
  | nil => rfl
  | cons p rest ih =>
    by_cases hp : p.1 = k
    · have hkk2 : ¬(k = k2) := fun e => h e.symm
      simp [List.filter_cons, hp, assocFind, hkk2, ih]
    · simp [List.filter_cons, hp, assocFind, ih]

theorem isOnCooldown_remove_self (st : EngineStore) (k : String) (now : ℝ) :
    ¬ isOnCooldown (removeCooldown st k) k now := by
  unfold isOnCooldown removeCooldown
  simp [assocFind_filter_self]

theorem isOnCooldown_remove_ne (st : EngineStore) (k k2 : String) (now : ℝ)
    (h : k2 ≠ k) :
    isOnCooldown (removeCooldown st k) k2 now ↔ isOnCooldown st k2 now := by
  unfold isOnCooldown removeCooldown
  rw [assocFind_filter_ne _ _ _ h]

open Classical in
theorem dampingOf_foldl_mul (st : EngineStore) (now : ℝ) (keys : List String) :
    ∀ x : ℝ,
      keys.foldl (fun d k => if isOnCooldown st k now then d * 0.5 else d) x =
        x * dampingOf keys st now := by
  induction keys with
  | nil => intro x; simp [dampingOf]
  | cons k ks ih =>
    intro x
    unfold dampingOf
    simp only [List.foldl]
    by_cases h : isOnCooldown st k now
    · rw [if_pos h, if_pos h, ih (x * 0.5), ih (1 * 0.5)]
      ring
    · rw [if_neg h, if_neg h, ih x, ih 1]
      ring

open Classical in
theorem dampingOf_cons (k : String) (ks : List String) (st : EngineStore) (now : ℝ) :
    dampingOf (k :: ks) st now =
      (if isOnCooldown st k now then (0.5 : ℝ) else 1) * dampingOf ks st now := by
  by_cases h : isOnCooldown st k now
  · rw [if_pos h]
    have h1 : dampingOf (k :: ks) st now =
        List.foldl (fun d k2 => if isOnCooldown st k2 now then d * 0.5 else d)
          ((1 : ℝ) * 0.5) ks := by
      unfold dampingOf
      simp only [List.foldl]
      rw [if_pos h]
    rw [h1, dampingOf_foldl_mul]
    ring
  · rw [if_neg h]
    have h1 : dampingOf (k :: ks) st now =
        List.foldl (fun d k2 => if isOnCooldown st k2 now then d * 0.5 else d)
          (1 : ℝ) ks := by
      unfold dampingOf
      simp only [List.foldl]
      rw [if_neg h]
    rw [h1, dampingOf_foldl_mul]

open Classical in
theorem cooledCount_cons_pos (k : String) (ks : List String) (st : EngineStore)
    (now : ℝ) (h : isOnCooldown st k now) :
    cooledCount (k :: ks) st now = cooledCount ks st now + 1 := by
  have hd : decide (isOnCooldown st k now) = true := decide_eq_true h
  unfold cooledCount
  rw [List.filter_cons]
  simp [hd]

open Classical in
theorem cooledCount_cons_neg (k : String) (ks : List String) (st : EngineStore)
    (now : ℝ) (h : ¬ isOnCooldown st k now) :
    cooledCount (k :: ks) st now = cooledCount ks st now := by
  have hd : decide (isOnCooldown st k now) = false := decide_eq_false h
  unfold cooledCount
  rw [List.filter_cons]
  simp [hd]

theorem dampingOf_eq_pow (keys : List String) (st : EngineStore) (now : ℝ) :
    dampingOf keys st now = 0.5 ^ cooledCount keys st now := by
  induction keys with
  | nil => simp [dampingOf, cooledCount]
  | cons k ks ih =>
    rw [dampingOf_cons, ih]
    by_cases h : isOnCooldown st k now
    · rw [if_pos h, cooledCount_cons_pos k ks st now h, pow_succ]
      ring
    · rw [if_neg h, cooledCount_cons_neg k ks st now h]
      ring

/-- C4: for every item, every Store state, every time and every decay rate,
the excitation score lies between 0 and 1. -/
theorem excitation_bounded (it : Item) (st : EngineStore) (now decay : ℝ) :
    0 ≤ excitation it st now decay ∧ excitation it st now decay ≤ 1 := by
  unfold excitation
  exact ⟨lo_le_clamp _ _ _, clamp_le_hi _ _ _ zero_le_one⟩

/-- C5: reading a stored weight at time t returns
value * (1 - DECAY)^max(days_elapsed, 0); for a positive weight written at
t0 with DECAY in (0,1), the read at any later t1 is strictly smaller, the
read at exactly t0 returns the value unchanged, decay never amplifies, and
no decay is applied over negative elapsed time. -/
theorem getWeight_decay_spec (st : EngineStore) (key : String) (v t0 t1 d : ℝ)
    (hfind : assocFind st.weights key = some (v, t0))
    (hv : 0 < v) (hd0 : 0 < d) (hd1 : d < 1) (ht : t0 < t1) :
    (∀ t, getWeight st key t d = v * (1 - d) ^ max ((t - t0) / 86400) 0) ∧
    getWeight st key t1 d < getWeight st key t0 d ∧
    getWeight st key t0 d = v ∧
    (∀ t, getWeight st key t d ≤ v) ∧
    (∀ t, t ≤ t0 → getWeight st key t d = v) := by
  have hb0 : (0 : ℝ) < 1 - d := by linarith
  have hb1 : 1 - d < 1 := by linarith
  have hform : ∀ t, getWeight st key t d =
      v * (1 - d) ^ max ((t - t0) / 86400) 0 := by
    intro t
    unfold getWeight
    rw [hfind]
    simp [decayedWeight]
  refine ⟨hform, ?_, ?_, ?_, ?_⟩
  · rw [hform t1, hform t0]
    have he1 : (0 : ℝ) < (t1 - t0) / 86400 := by
      apply div_pos <;> linarith
    rw [max_eq_left he1.le]
    have h00 : max ((t0 - t0) / 86400) (0 : ℝ) = 0 := by simp
    rw [h00, Real.rpow_zero, mul_one]
    exact mul_lt_of_lt_one_right hv (Real.rpow_lt_one hb0.le hb1 he1)
  · rw [hform t0]
    simp [Real.rpow_zero]
  · intro t
    rw [hform t]
    exact mul_le_of_le_one_right hv.le
      (Real.rpow_le_one hb0.le hb1.le (le_max_right _ _))
  · intro t htle
    rw [hform t]
    have hnp : (t - t0) / 86400 ≤ (0 : ℝ) := by
      apply div_nonpos_of_nonpos_of_nonneg <;> linarith
    rw [max_eq_right hnp, Real.rpow_zero, mul_one]

theorem getWeight_decay_spec_witness :
    assocFind (EngineStore.mk [("k", ((1 : ℝ), (0 : ℝ)))] []).weights "k" =
      some (1, 0) ∧
    getWeight (EngineStore.mk [("k", ((1 : ℝ), (0 : ℝ)))] []) "k" 86400 (1 / 2) <
      getWeight (EngineStore.mk [("k", ((1 : ℝ), (0 : ℝ)))] []) "k" 0 (1 / 2) ∧
    getWeight (EngineStore.mk [("k", ((1 : ℝ), (0 : ℝ)))] []) "k" 0 (1 / 2) = 1 := by
  have hfind : assocFind
      (EngineStore.mk [("k", ((1 : ℝ), (0 : ℝ)))] []).weights "k" = some (1, 0) := by
    simp [assocFind]
  have h := getWeight_decay_spec (EngineStore.mk [("k", ((1 : ℝ), (0 : ℝ)))] [])
    "k" 1 0 86400 (1 / 2) hfind (by norm_num) (by norm_num) (by norm_num) (by norm_num)
  exact ⟨hfind, h.2.1, h.2.2.1⟩

/-- C6: when exactly one derived key of an item is on cooldown, its
excitation equals exactly half of the excitation computed from the same
Store state with that cooldown record removed; in general the damping
factor multiplies in one factor 0.5 per cooled key. -/
theorem excitation_cooldown_halving (it : Item) (st : EngineStore)
    (now decay : ℝ) (k : String) (hk : k ∈ deriveKeys it)
    (hcool : isOnCooldown st k now)
    (hothers : ∀ k2 ∈ deriveKeys it, k2 ≠ k → ¬ isOnCooldown st k2 now) :
    excitation it st now decay = excitation it (removeCooldown st k) now decay / 2 ∧
    ∀ st2, damping it st2 now = 0.5 ^ cooledCount (deriveKeys it) st2 now := by
  refine ⟨?_, fun st2 => dampingOf_eq_pow (deriveKeys it) st2 now⟩
  have hne : ("source:" ++ it.source) ≠ ("term:" ++ firstTitleToken it.title) :=
    sourceKey_ne_termKey _ _
  have hk2 : k = "source:" ++ it.source ∨ k = "term:" ++ firstTitleToken it.title := by
    simpa [deriveKeys] using hk
  have hrs : runningScore it (removeCooldown st k) now decay =
      runningScore it st now decay := rfl
  have hS0 := sigmoid_pos (3 * (runningScore it st now decay - 0.35))
  have hS1 := sigmoid_lt_one (3 * (runningScore it st now decay - 0.35))
  rcases hk2 with hks | hks
  · subst hks
    have hct : ¬ isOnCooldown st ("term:" ++ firstTitleToken it.title) now :=
      hothers _ (by simp [deriveKeys]) (Ne.symm hne)
    have hd1 : damping it st now = 0.5 := by
      unfold damping deriveKeys
      rw [dampingOf_cons, dampingOf_cons, if_pos hcool, if_neg hct]
      simp [dampingOf]
    have hrm1 : ¬ isOnCooldown
        (removeCooldown st ("source:" ++ it.source)) ("source:" ++ it.source) now :=
      isOnCooldown_remove_self st _ now
    have hrm2 : ¬ isOnCooldown (removeCooldown st ("source:" ++ it.source))
        ("term:" ++ firstTitleToken it.title) now := by
      rw [isOnCooldown_remove_ne st _ _ now (Ne.symm hne)]
      exact hct
    have hd2 : damping it (removeCooldown st ("source:" ++ it.source)) now = 1 := by
      unfold damping deriveKeys
      rw [dampingOf_cons, dampingOf_cons, if_neg hrm1, if_neg hrm2]
      simp [dampingOf]
    unfold excitation
    rw [hd1, hd2, hrs]
    rw [clamp_eq_self _ _ _ (by nlinarith) (by nlinarith),
      clamp_eq_self _ _ _ (by nlinarith) (by nlinarith)]
    ring
  · subst hks
    have hcs : ¬ isOnCooldown st ("source:" ++ it.source) now :=
      hothers _ (by simp [deriveKeys]) hne
    have hd1 : damping it st now = 0.5 := by
      unfold damping deriveKeys
      rw [dampingOf_cons, dampingOf_cons, if_neg hcs, if_pos hcool]
      simp [dampingOf]
    have hrm1 : ¬ isOnCooldown
        (removeCooldown st ("term:" ++ firstTitleToken it.title))
        ("source:" ++ it.source) now := by
      rw [isOnCooldown_remove_ne st _ _ now hne]
      exact hcs
    have hrm2 : ¬ isOnCooldown
        (removeCooldown st ("term:" ++ firstTitleToken it.title))
        ("term:" ++ firstTitleToken it.title) now :=
      isOnCooldown_remove_self st _ now
    have hd2 : damping it
        (removeCooldown st ("term:" ++ firstTitleToken it.title)) now = 1 := by
      unfold damping deriveKeys
      rw [dampingOf_cons, dampingOf_cons, if_neg hrm1, if_neg hrm2]
      simp [dampingOf]
    unfold excitation
    rw [hd1, hd2, hrs]
    rw [clamp_eq_self _ _ _ (by nlinarith) (by nlinarith),
      clamp_eq_self _ _ _ (by nlinarith) (by nlinarith)]
    ring

theorem excitation_cooldown_halving_witness :
    isOnCooldown (EngineStore.mk [] [("source:g", (10 : ℝ))]) "source:g" 5 ∧
    excitation (Item.mk "g" "1" "w" none 0)
        (EngineStore.mk [] [("source:g", (10 : ℝ))]) 5 (1 / 2) =
      excitation (Item.mk "g" "1" "w" none 0)
        (removeCooldown (EngineStore.mk [] [("source:g", (10 : ℝ))]) "source:g")
        5 (1 / 2) / 2 := by
  have hcool : isOnCooldown (EngineStore.mk [] [("source:g", (10 : ℝ))])
      "source:g" 5 := by
    show (5 : ℝ) < 10
    norm_num
  have hk : ("source:g" : String) ∈ deriveKeys (Item.mk "g" "1" "w" none 0) :=
    List.Mem.head _
  have hothers : ∀ k2 ∈ deriveKeys (Item.mk "g" "1" "w" none 0),
      k2 ≠ "source:g" →
      ¬ isOnCooldown (EngineStore.mk [] [("source:g", (10 : ℝ))]) k2 5 := by
    intro k2 hk2 hne2
    rcases List.mem_cons.mp hk2 with h | h
    · exact absurd h hne2
    · rcases List.mem_singleton.mp h with rfl
      exact fun hh => hh
  exact ⟨hcool,
    (excitation_cooldown_halving (Item.mk "g" "1" "w" none 0)
      (EngineStore.mk [] [("source:g", (10 : ℝ))]) 5 (1 / 2) "source:g"
      hk hcool hothers).1⟩

/-! ### Characterization of the embedded price regex search -/

theorem ws_not_digit (c : Char) (h : c.isWhitespace = true) : c.isDigit = false := by
  simp only [Char.isWhitespace] at h
  simp only [Bool.or_eq_true, decide_eq_true_eq] at h
  rcases h with ((h | h) | h) | h <;> subst h <;> decide

theorem digit_not_ws (c : Char) (h : c.isDigit = true) : c.isWhitespace = false := by
  by_contra hw
  have hw2 : c.isWhitespace = true := by simpa using hw
  have h2 := ws_not_digit c hw2
  rw [h2] at h
  simp at h

theorem firstDigitRun_dropWhile_ws (l : List Char) :
    firstDigitRun (l.dropWhile Char.isWhitespace) = firstDigitRun l := by
  induction l with
  | nil => rfl
  | cons c cs ih =>
    by_cases h : c.isWhitespace = true
    · simp [List.dropWhile_cons, h, firstDigitRun, ws_not_digit c h, ih]
    · simp [List.dropWhile_cons, h]

theorem matchCore_some (l g : List Char)
    (h : (if ((l.dropWhile Char.isWhitespace).takeWhile Char.isDigit).isEmpty then
            (none : Option (List Char))
          else some (((l.dropWhile Char.isWhitespace).takeWhile Char.isDigit).take 6))
        = some g) :
    firstDigitRun l ≠ [] ∧ g = (firstDigitRun l).take 6 := by
  by_cases he : ((l.dropWhile Char.isWhitespace).takeWhile Char.isDigit).isEmpty = true
  · rw [if_pos he] at h
    cases h
  · rw [if_neg he] at h
    have h2 : firstDigitRun (l.dropWhile Char.isWhitespace) =
        (l.dropWhile Char.isWhitespace).takeWhile Char.isDigit := by
      cases hl2 : l.dropWhile Char.isWhitespace with
      | nil => rw [hl2] at he; simp at he
      | cons c cs =>
        rw [hl2] at he
        by_cases hc : c.isDigit = true
        · simp [firstDigitRun, hc, List.takeWhile_cons]
        · simp [List.takeWhile_cons, hc] at he
    have h3 : firstDigitRun l = (l.dropWhile Char.isWhitespace).takeWhile Char.isDigit :=
      (firstDigitRun_dropWhile_ws l).symm.trans h2
    constructor
    · rw [h3]
      intro hnil
      rw [hnil] at he
      simp at he
    · rw [h3]
      exact (Option.some.inj h).symm

theorem firstDigitRun_dollarStrip (l : List Char) :
    firstDigitRun (dollarStrip l) = firstDigitRun l := by
  unfold dollarStrip
  split
  · next rest =>
    have hd : ('$' : Char).isDigit = false := by decide
    simp [firstDigitRun, hd]
  · rfl

theorem matchPriceAt_some (l g : List Char) (h : matchPriceAt l = some g) :
    firstDigitRun l ≠ [] ∧ g = (firstDigitRun l).take 6 := by
  have h2 := matchCore_some (dollarStrip l) g h
  rw [firstDigitRun_dollarStrip] at h2
  exact h2

theorem matchPriceAt_head_digit (c : Char) (cs : List Char) (hc : c.isDigit = true) :
    matchPriceAt (c :: cs) = some ((firstDigitRun (c :: cs)).take 6) := by
  have hcd : c ≠ '$' := by
    intro e
    rw [e] at hc
    simp at hc
  have hm : dollarStrip (c :: cs) = c :: cs := by
    unfold dollarStrip
    split
    · next rest heq =>
      rw [List.cons.injEq] at heq
      exact absurd heq.1 hcd
    · rfl
  unfold matchPriceAt
  simp only [hm]
  simp [List.dropWhile_cons, digit_not_ws c hc, List.takeWhile_cons, hc, firstDigitRun]

theorem firstDigitRun_eq_nil_iff (l : List Char) :
    firstDigitRun l = [] ↔ l.any Char.isDigit = false := by
  induction l with
  | nil => simp [firstDigitRun]
  | cons c cs ih =>
    by_cases hc : c.isDigit = true
    · simp [firstDigitRun, hc]
    · simp only [Bool.not_eq_true] at hc
      simp [firstDigitRun, hc, ih]

theorem searchPrice_spec (l : List Char) :
    (l.any Char.isDigit = true → searchPrice l = some ((firstDigitRun l).take 6)) ∧
    (l.any Char.isDigit = false → searchPrice l = none) := by
  induction l with
  | nil => simp [searchPrice]
  | cons c cs ih =>
    cases hm : matchPriceAt (c :: cs) with
    | some g =>
      have hg := matchPriceAt_some _ _ hm
      constructor
      · intro _
        simp [searchPrice, hm, hg.2]
      · intro hfa
        exact absurd ((firstDigitRun_eq_nil_iff (c :: cs)).mpr hfa) hg.1
    | none =>
      have hcd : c.isDigit = false := by
        cases hcc : c.isDigit with
        | false => rfl
        | true => rw [matchPriceAt_head_digit c cs hcc] at hm; cases hm
      constructor
      · intro ha
        rw [List.any_cons, hcd, Bool.false_or] at ha
        have hs : searchPrice (c :: cs) = searchPrice cs := by simp [searchPrice, hm]
        have hf : firstDigitRun (c :: cs) = firstDigitRun cs := by
          simp [firstDigitRun, hcd]
        rw [hs, hf]
        exact ih.1 ha
      · intro ha
        rw [List.any_cons, hcd, Bool.false_or] at ha
        have hs : searchPrice (c :: cs) = searchPrice cs := by simp [searchPrice, hm]
        rw [hs]
        exact ih.2 ha

theorem any_digit_stripCommas (s : String) :
    (stripCommas s).any Char.isDigit = s.toList.any Char.isDigit := by
  unfold stripCommas
  induction s.toList with
  | nil => rfl
  | cons c cs ih =>
    by_cases hc : c = ','
    · have hd : Char.isDigit ',' = false := by decide
      subst hc
      simp [List.filter_cons, List.any_cons, ih, hd]
    · simp [List.filter_cons, List.any_cons, hc, ih]

/-- C9: parse_price returns none exactly on the empty string or a string
with no digit; any returned value is a non-negative whole number equal to
the value of the first run of digits (capped at six) of the comma-stripped
input; fractional digits are discarded, as the dollar-price example shows. -/
theorem parse_price_spec :
    (∀ s : String, parse_price s = none ↔
      (s = "" ∨ s.toList.any Char.isDigit = false)) ∧
    (∀ s : String, ∀ q : ℚ, parse_price s = some q →
      0 ≤ q ∧ q = (digitsToNat ((firstDigitRun (stripCommas s)).take 6) : ℚ)) ∧
    parse_price "$123.45" = some 123 := by
  refine ⟨?_, ?_, by decide⟩
  · intro s
    unfold parse_price
    by_cases hs : s = ""
    · simp [hs]
    · rw [if_neg hs]
      cases ha : s.toList.any Char.isDigit with
      | true =>
        have h1 : (stripCommas s).any Char.isDigit = true := by
          rw [any_digit_stripCommas]; exact ha
        rw [(searchPrice_spec _).1 h1]
        simp [hs]
      | false =>
        have h1 : (stripCommas s).any Char.isDigit = false := by
          rw [any_digit_stripCommas]; exact ha
        rw [(searchPrice_spec _).2 h1]
        simp
  · intro s q h
    unfold parse_price at h
    by_cases hs : s = ""
    · rw [if_pos hs] at h
      cases h
    · rw [if_neg hs] at h
      cases hm : searchPrice (stripCommas s) with
      | none => rw [hm] at h; cases h
      | some g =>
        rw [hm] at h
        have hq : (digitsToNat g : ℚ) = q := Option.some.inj h
        cases ha : (stripCommas s).any Char.isDigit with
        | false =>
          rw [(searchPrice_spec _).2 ha] at hm
          cases hm
        | true =>
          have h2 := ((searchPrice_spec _).1 ha).symm.trans hm
          have h3 : g = (firstDigitRun (stripCommas s)).take 6 :=
            (Option.some.inj h2).symm
          constructor
          · rw [← hq]
            exact Nat.cast_nonneg _
          · rw [← hq, h3]

theorem parse_price_spec_witness :
    parse_price "" = none ∧
    parse_price "no digits here" = none ∧
    (0 : ℚ) ≤ 7 ∧
    (7 : ℚ) = (digitsToNat ((firstDigitRun (stripCommas "ab7cd")).take 6) : ℚ) := by
  refine ⟨?_, ?_, ?_, ?_⟩
  · exact (parse_price_spec.1 "").mpr (Or.inl rfl)
  · exact (parse_price_spec.1 "no digits here").mpr (Or.inr (by decide))
  · exact (parse_price_spec.2.1 "ab7cd" 7 (by decide)).1
  · exact (parse_price_spec.2.1 "ab7cd" 7 (by decide)).2
